import Mathlib

/-!
Verification of the inheritance-calculation core.

The orchestrator is translated from src/services/inheritance_calculator.py.
The domain model, the heir validator and the share calculator are not part of
the snapshot (only their callers are), so they are modelled from the
specification; each such definition is marked in its doc comment.
Python Fraction values are embedded as rationals, dictionaries as association
lists looked up by first match, and the mutable validator instance as explicit
state passing.
-/

namespace InheritanceCalc

/-- Modelled from the spec: the Person value type of models/person.py (missing
from the snapshot) restricted to the fields the core reads: opaque unique id,
display name, survival status, decedent flag, and the retransfer flag. -/
structure Person where
  id : String
  name : String
  is_alive : Bool
  is_decedent : Bool
  died_before_division : Bool
deriving DecidableEq, Repr

/-- Modelled from the spec: blood-relation qualifier for siblings. -/
inductive BloodType where
  | FULL
  | HALF
deriving DecidableEq, Repr

/-- Modelled from the spec: statutory rank of an heir. -/
inductive HeritageRank where
  | SPOUSE
  | FIRST
  | SECOND
  | THIRD
deriving DecidableEq, Repr

/-- Modelled from the spec: substitution (representation) kind. -/
inductive SubstitutionType where
  | NONE
  | CHILD_LINE
  | SIBLING_LINE
deriving DecidableEq, Repr

/-- Modelled from the spec: the Heir record of models/inheritance.py (missing
from the snapshot): person, rank, exact share, derived display percentage
(display-only; embedded exactly as a rational), substitution metadata and
retransfer metadata. -/
structure Heir where
  person : Person
  rank : HeritageRank
  share : ℚ
  share_percentage : ℚ
  substitution_type : SubstitutionType
  substituted_person : Option Person
  is_retransfer : Bool
  retransfer_from : Option Person
  original_share : Option ℚ
deriving DecidableEq, Repr

/-- Modelled from the spec: the InheritanceResult record of
models/inheritance.py (missing from the snapshot). -/
structure InheritanceResult where
  decedent : Person
  heirs : List Heir
  has_spouse : Bool
  has_children : Bool
  has_parents : Bool
  has_siblings : Bool
  calculation_basis : List String
deriving DecidableEq, Repr

/-- Derived heir count of an InheritanceResult. -/
def InheritanceResult.total_heirs (r : InheritanceResult) : Nat :=
  r.heirs.length

/-- Modelled from the spec: InheritanceResult construction with only the
decedent supplied; list fields empty, flags false. -/
def InheritanceResult.init (decedent : Person) : InheritanceResult :=
  ⟨decedent, [], false, false, false, false, []⟩

/-- Modelled from the spec: add_calculation_basis of models/inheritance.py
(missing from the snapshot): citations are kept in insertion order with
duplicates avoided. -/
def addCalculationBasis (r : InheritanceResult) (basis : String) : InheritanceResult :=
  if basis ∈ r.calculation_basis then r
  else { r with calculation_basis := r.calculation_basis ++ [basis] }

/-- The Heir record produced by add_heir for person, rank and share. -/
def mkHeirEntry (p : Person) (rank : HeritageRank) (share : ℚ) : Heir :=
  ⟨p, rank, share, share * 100, SubstitutionType.NONE, none, false, none, none⟩

/-- Modelled from the spec: add_heir of models/inheritance.py (missing from
the snapshot): appends one Heir with the given person, rank and exact share;
no substitution or retransfer metadata. -/
def addHeir (r : InheritanceResult) (p : Person) (rank : HeritageRank) (share : ℚ) :
    InheritanceResult :=
  { r with heirs := r.heirs ++ [mkHeirEntry p rank share] }

/-- Modelled from the spec: the HeirValidator of services/heir_validator.py
(missing from the snapshot): per-call mutable fields holding the bound
decedent and the three exclusion lists. -/
structure HeirValidator where
  decedent : Option Person
  renounced_persons : List Person
  disqualified_persons : List Person
  disinherited_persons : List Person
deriving DecidableEq, Repr

/-- A freshly constructed validator: no decedent bound, empty exclusion lists. -/
def HeirValidator.init : HeirValidator :=
  ⟨none, [], [], []⟩

/-- Membership by identity in one exclusion list. -/
def inList (l : List Person) (p : Person) : Bool :=
  l.any (fun q => q.id == p.id)

/-- Modelled from the spec: a candidate is excluded iff present (by identity)
in the renounced, disqualified or disinherited exclusion sets. -/
def isExcluded (v : HeirValidator) (p : Person) : Bool :=
  inList v.renounced_persons p || inList v.disqualified_persons p ||
    inList v.disinherited_persons p

/-- Modelled from the spec: validate_spouse is true iff the candidate is not
excluded; survival is not required at the spouse gate. -/
def validate_spouse (v : HeirValidator) (c : Person) : Bool :=
  !isExcluded v c

/-- Modelled from the spec: validate_child is true iff the candidate is not
excluded (substitution pre-expansion by the caller is assumed). -/
def validate_child (v : HeirValidator) (c : Person) : Bool :=
  !isExcluded v c

/-- Modelled from the spec: validate_parent is true iff has_first_rank is
false and the candidate is not excluded. -/
def validate_parent (v : HeirValidator) (c : Person) (has_first_rank : Bool) : Bool :=
  !has_first_rank && !isExcluded v c

/-- Modelled from the spec: validate_sibling is true iff both upstream flags
are false and the candidate is not excluded. -/
def validate_sibling (v : HeirValidator) (c : Person)
    (has_first_rank has_second_rank : Bool) : Bool :=
  !has_first_rank && !has_second_rank && !isExcluded v c

/-- Share lookup: dict.get(str(id), Fraction(0,1)) over an association list. -/
def lookupShare (shares : List (String × ℚ)) (pid : String) : ℚ :=
  ((shares.find? (fun e => e.1 == pid)).map (fun e => e.2)).getD 0

/-- Blood-type lookup defaulting to FULL when the id is absent. -/
def lookupBlood (blood : List (String × BloodType)) (pid : String) : BloodType :=
  ((blood.find? (fun e => e.1 == pid)).map (fun e => e.2)).getD BloodType.FULL

/-- Modelled from the spec: sibling weight, 2 for full blood and 1 for half
blood, defaulting to full when the id is absent from the mapping. -/
def siblingWeight (blood : List (String × BloodType)) (pid : String) : ℚ :=
  match lookupBlood blood pid with
  | BloodType.FULL => 2
  | BloodType.HALF => 1

/-- Modelled from the spec: ShareCalculator.calculate_shares of
services/share_calculator.py (missing from the snapshot): the statutory
partition table keyed by which validated rank sets are non-empty, with equal
intra-rank split for spouses, children and ascendants and the weighted split
for siblings, all in exact rational arithmetic, returned as a mapping from
person id to share. -/
def calculate_shares (spouses children parents siblings : List Person)
    (sibling_blood_types : List (String × BloodType)) : List (String × ℚ) :=
  let totals : ℚ × ℚ :=
    if spouses.isEmpty then (0, 1)
    else if !children.isEmpty then (1/2, 1/2)
    else if !parents.isEmpty then (2/3, 1/3)
    else if !siblings.isEmpty then (3/4, 1/4)
    else (1, 0)
  let spouseEntries := spouses.map (fun s => (s.id, totals.1 / (spouses.length : ℚ)))
  let weightSum : ℚ :=
    (siblings.map (fun s => siblingWeight sibling_blood_types s.id)).sum
  let bloodEntries :=
    if !children.isEmpty then
      children.map (fun c => (c.id, totals.2 / (children.length : ℚ)))
    else if !parents.isEmpty then
      parents.map (fun p => (p.id, totals.2 / (parents.length : ℚ)))
    else
      siblings.map
        (fun s => (s.id, totals.2 * siblingWeight sibling_blood_types s.id / weightSum))
  spouseEntries ++ bloodEntries

/-- Citation recorded for each valid spouse. -/
def cit890 : String := "民法890条（配偶者の相続権）"

/-- Citation recorded when any child qualifies. -/
def cit887 : String := "民法887条1項（子の相続権）"

/-- Citation recorded when any ascendant qualifies. -/
def cit889a : String := "民法889条1項1号（直系尊属の相続権）"

/-- Citation recorded when any sibling qualifies. -/
def cit889b : String := "民法889条1項2号（兄弟姉妹の相続権）"

/-- Partition citation for the spouse-and-children configuration. -/
def cit900a : String := "民法900条1号（配偶者1/2、子1/2）"

/-- Partition citation for the spouse-and-ascendants configuration. -/
def cit900b : String := "民法900条2号（配偶者2/3、直系尊属1/3）"

/-- Partition citation for the spouse-and-siblings configuration. -/
def cit900c : String := "民法900条3号（配偶者3/4、兄弟姉妹1/4）"

/-- Citation recorded when the retransfer pass fires. -/
def cit896 : String := "民法第896条（相続人の相続、再転相続）"

/-- Arguments of InheritanceCalculator.calculate, with the Python None
defaults already resolved to empty lists and maps. -/
structure CalcArgs where
  decedent : Person
  spouses : List Person
  children : List Person
  parents : List Person
  siblings : List Person
  renounced : List Person
  disqualified : List Person
  disinherited : List Person
  sibling_blood_types : List (String × BloodType)
  retransfer_heirs_info : List (String × List Person)
deriving Repr

/-- InheritanceCalculator._validate_spouses: the loop that collects valid
spouses and records the spousal citation once per valid spouse, with the
result object threaded explicitly. -/
def validateSpouses (v : HeirValidator) (spouses : List Person)
    (r : InheritanceResult) : List Person × InheritanceResult :=
  spouses.foldl
    (fun acc spouse =>
      if validate_spouse v spouse then
        (acc.1 ++ [spouse], addCalculationBasis acc.2 cit890)
      else acc)
    ([], r)

/-- InheritanceCalculator._validate_children: collect valid children and, when
any exist, record the children citation. -/
def validateChildren (v : HeirValidator) (children : List Person)
    (r : InheritanceResult) : List Person × InheritanceResult :=
  let valid_children := children.filter (fun c => validate_child v c)
  (valid_children,
    if valid_children.isEmpty then r
    else addCalculationBasis r cit887)

/-- InheritanceCalculator._validate_parents. -/
def validateParents (v : HeirValidator) (parents : List Person)
    (r : InheritanceResult) (has_first_rank : Bool) : List Person × InheritanceResult :=
  let valid_parents := parents.filter (fun p => validate_parent v p has_first_rank)
  (valid_parents,
    if valid_parents.isEmpty then r
    else addCalculationBasis r cit889a)

/-- InheritanceCalculator._validate_siblings. -/
def validateSiblings (v : HeirValidator) (siblings : List Person)
    (r : InheritanceResult) (has_first_rank has_second_rank : Bool) :
    List Person × InheritanceResult :=
  let valid_siblings :=
    siblings.filter (fun s => validate_sibling v s has_first_rank has_second_rank)
  (valid_siblings,
    if valid_siblings.isEmpty then r
    else addCalculationBasis r cit889b)

/-- InheritanceCalculator._add_heirs_to_result: append one Heir per validated
candidate, spouses then children then parents then siblings, each share read
from the mapping with default 0, then append the partition-rule citation for
the combination that fired. -/
def addHeirsToResult (r : InheritanceResult) (spouses children parents siblings : List Person)
    (shares : List (String × ℚ)) : InheritanceResult :=
  let r := spouses.foldl
    (fun r s => addHeir r s HeritageRank.SPOUSE (lookupShare shares s.id)) r
  let r := children.foldl
    (fun r c => addHeir r c HeritageRank.FIRST (lookupShare shares c.id)) r
  let r := parents.foldl
    (fun r p => addHeir r p HeritageRank.SECOND (lookupShare shares p.id)) r
  let r := siblings.foldl
    (fun r s => addHeir r s HeritageRank.THIRD (lookupShare shares s.id)) r
  if !spouses.isEmpty && !children.isEmpty then
    addCalculationBasis r cit900a
  else if !spouses.isEmpty && !parents.isEmpty then
    addCalculationBasis r cit900b
  else if !spouses.isEmpty && !siblings.isEmpty then
    addCalculationBasis r cit900c
  else r

/-- InheritanceCalculator._calculate_retransfer_shares: equal split of the
original share among the targets; empty target list gives the empty list. -/
def calculateRetransferShares (original_share : ℚ) (retransfer_targets : List Person) :
    List (Person × ℚ) :=
  if retransfer_targets.isEmpty then []
  else
    retransfer_targets.map
      (fun p => (p, original_share / (retransfer_targets.length : ℚ)))

/-- Target-list lookup: retransfer_info.get(heir_id, []). -/
def lookupTargets (info : List (String × List Person)) (pid : String) : List Person :=
  ((info.find? (fun e => e.1 == pid)).map (fun e => e.2)).getD []

/-- The Heir record built for one retransfer target in
_process_retransfer_inheritance_with_info. -/
def retransferHeir (original : Heir) (target : Person) (share : ℚ) : Heir :=
  ⟨target, original.rank, share, share * 100, SubstitutionType.NONE, none, true,
    some original.person, some original.share⟩

/-- InheritanceCalculator._process_retransfer_inheritance_with_info: identify
heirs flagged died_before_division and not alive; if none, return the result
unchanged; otherwise record the retransfer citation, carry over every heir
without the flag, and for each identified heir either carry it over (no
targets listed) or replace it with one retransfer Heir per target. -/
def processRetransferWithInfo (result : InheritanceResult)
    (retransfer_info : List (String × List Person)) : InheritanceResult :=
  let retransfer_heirs := result.heirs.filter
    (fun h => h.person.died_before_division && !h.person.is_alive)
  if retransfer_heirs.isEmpty then result
  else
    let result := addCalculationBasis result cit896
    let carried := result.heirs.filter (fun h => !h.person.died_before_division)
    let retransferred := retransfer_heirs.flatMap
      (fun original_heir =>
        let retransfer_targets := lookupTargets retransfer_info original_heir.person.id
        if retransfer_targets.isEmpty then [original_heir]
        else
          (calculateRetransferShares original_heir.share retransfer_targets).map
            (fun ts => retransferHeir original_heir ts.1 ts.2))
    { result with heirs := carried ++ retransferred }

/-- The validator state holding the decedent and exclusion lists assigned at
the start of calculate (lines 78-81 of the orchestrator). -/
def mkValidator (a : CalcArgs) : HeirValidator :=
  ⟨some a.decedent, a.renounced, a.disqualified, a.disinherited⟩

/-- Steps 2-7 of calculate with an explicit validator: validate the four
ranks in dependency order, compute shares, build the Heir records and set the
summary flags. -/
def builtFrom (v : HeirValidator) (a : CalcArgs) : InheritanceResult :=
  let result := InheritanceResult.init a.decedent
  let sv := validateSpouses v a.spouses result
  let cv := validateChildren v a.children sv.2
  let pv := validateParents v a.parents cv.2 (!cv.1.isEmpty)
  let bv := validateSiblings v a.siblings pv.2 (!cv.1.isEmpty) (!pv.1.isEmpty)
  let shares := calculate_shares sv.1 cv.1 pv.1 bv.1 a.sibling_blood_types
  let result := addHeirsToResult bv.2 sv.1 cv.1 pv.1 bv.1 shares
  { result with
      has_spouse := !sv.1.isEmpty
      has_children := !cv.1.isEmpty
      has_parents := !pv.1.isEmpty
      has_siblings := !bv.1.isEmpty }

/-- InheritanceCalculator.calculate on an instance whose validator state is v0:
reassign the validator's decedent and exclusion lists from the arguments, run
the pipeline, apply the retransfer pass when the mapping is non-empty, and
return the result together with the instance's validator state. -/
def calculateFrom (v0 : HeirValidator) (a : CalcArgs) :
    InheritanceResult × HeirValidator :=
  let v := { v0 with
    decedent := some a.decedent
    renounced_persons := a.renounced
    disqualified_persons := a.disqualified
    disinherited_persons := a.disinherited }
  let result := builtFrom v a
  let result :=
    if a.retransfer_heirs_info.isEmpty then result
    else processRetransferWithInfo result a.retransfer_heirs_info
  (result, v)

/-- The result built before the retransfer pass (steps 2-7 of calculate). -/
def builtResult (a : CalcArgs) : InheritanceResult :=
  builtFrom (mkValidator a) a

/-- InheritanceCalculator.calculate as a function of its arguments, on a
freshly constructed instance. -/
def calculate (a : CalcArgs) : InheritanceResult :=
  (calculateFrom HeirValidator.init a).1

/-- The validated spouse list of a calculation. -/
def validSpousesL (a : CalcArgs) : List Person :=
  a.spouses.filter (fun s => validate_spouse (mkValidator a) s)

/-- The validated children list of a calculation. -/
def validChildrenL (a : CalcArgs) : List Person :=
  a.children.filter (fun c => validate_child (mkValidator a) c)

/-- The validated ascendant list of a calculation. -/
def validParentsL (a : CalcArgs) : List Person :=
  a.parents.filter
    (fun p => validate_parent (mkValidator a) p (!(validChildrenL a).isEmpty))

/-- The validated sibling list of a calculation. -/
def validSiblingsL (a : CalcArgs) : List Person :=
  a.siblings.filter
    (fun s => validate_sibling (mkValidator a) s (!(validChildrenL a).isEmpty)
      (!(validParentsL a).isEmpty))

/-- The share mapping computed by a calculation. -/
def sharesOf (a : CalcArgs) : List (String × ℚ) :=
  calculate_shares (validSpousesL a) (validChildrenL a) (validParentsL a)
    (validSiblingsL a) a.sibling_blood_types

/-- The Heir records appended by _add_heirs_to_result, in order. -/
def heirEntries (spouses children parents siblings : List Person)
    (shares : List (String × ℚ)) : List Heir :=
  spouses.map (fun p => mkHeirEntry p HeritageRank.SPOUSE (lookupShare shares p.id)) ++
  children.map (fun p => mkHeirEntry p HeritageRank.FIRST (lookupShare shares p.id)) ++
  parents.map (fun p => mkHeirEntry p HeritageRank.SECOND (lookupShare shares p.id)) ++
  siblings.map (fun p => mkHeirEntry p HeritageRank.THIRD (lookupShare shares p.id))

theorem addCalculationBasis_heirs (r : InheritanceResult) (c : String) :
    (addCalculationBasis r c).heirs = r.heirs := by
  unfold addCalculationBasis
  split <;> rfl

theorem addCalculationBasis_idem (r : InheritanceResult) (c : String) :
    addCalculationBasis (addCalculationBasis r c) c = addCalculationBasis r c := by
  by_cases h : c ∈ r.calculation_basis <;> simp [addCalculationBasis, h]

theorem mem_addCalculationBasis (r : InheritanceResult) (c s : String) :
    s ∈ (addCalculationBasis r c).calculation_basis ↔
      s ∈ r.calculation_basis ∨ s = c := by
  unfold addCalculationBasis
  split <;> rename_i hc
  · constructor
    · exact fun h => Or.inl h
    · rintro (h | rfl)
      · exact h
      · exact hc
  · simp

theorem validateSpouses_eq (v : HeirValidator) (l : List Person) (r : InheritanceResult) :
    validateSpouses v l r =
      (l.filter (fun s => validate_spouse v s),
        if (l.filter (fun s => validate_spouse v s)).isEmpty then r
        else addCalculationBasis r cit890) := by
  unfold validateSpouses
  suffices h : ∀ acc : List Person × InheritanceResult,
      l.foldl
        (fun acc spouse =>
          if validate_spouse v spouse then
            (acc.1 ++ [spouse], addCalculationBasis acc.2 cit890)
          else acc) acc =
      (acc.1 ++ l.filter (fun s => validate_spouse v s),
        if (l.filter (fun s => validate_spouse v s)).isEmpty then acc.2
        else addCalculationBasis acc.2 cit890) by
    simpa using h ([], r)
  induction l with
  | nil => intro acc; simp
  | cons x xs ih =>
    intro acc
    by_cases hx : validate_spouse v x
    · simp only [List.foldl_cons, hx, if_pos, List.filter_cons_of_pos hx]
      rw [ih]
      simp [addCalculationBasis_idem]
    · simp only [List.foldl_cons, hx, if_neg, List.filter_cons_of_neg hx]
      rw [ih]
      simp [hx]

theorem foldl_addHeir (l : List Person) (rank : HeritageRank) (f : Person → ℚ)
    (r : InheritanceResult) :
    l.foldl (fun r p => addHeir r p rank (f p)) r =
      { r with heirs := r.heirs ++ l.map (fun p => mkHeirEntry p rank (f p)) } := by
  induction l generalizing r with
  | nil => simp
  | cons x xs ih =>
    simp only [List.foldl_cons, List.map_cons]
    rw [ih]
    simp [addHeir]

/-- The partition-citation step at the end of _add_heirs_to_result, isolated. -/
def partitionCite (sp ch pa si : List Person) (r : InheritanceResult) :
    InheritanceResult :=
  if !sp.isEmpty && !ch.isEmpty then addCalculationBasis r cit900a
  else if !sp.isEmpty && !pa.isEmpty then addCalculationBasis r cit900b
  else if !sp.isEmpty && !si.isEmpty then addCalculationBasis r cit900c
  else r

theorem addHeirsToResult_eq (r : InheritanceResult)
    (sp ch pa si : List Person) (shares : List (String × ℚ)) :
    addHeirsToResult r sp ch pa si shares =
      partitionCite sp ch pa si
        { r with heirs := r.heirs ++ heirEntries sp ch pa si shares } := by
  simp only [addHeirsToResult, foldl_addHeir, partitionCite, heirEntries,
    List.append_assoc]

theorem partitionCite_heirs (sp ch pa si : List Person) (r : InheritanceResult) :
    (partitionCite sp ch pa si r).heirs = r.heirs := by
  unfold partitionCite
  split <;> try split <;> try split
  all_goals simp [addCalculationBasis_heirs]

theorem addHeirsToResult_heirs (r : InheritanceResult)
    (sp ch pa si : List Person) (shares : List (String × ℚ)) :
    (addHeirsToResult r sp ch pa si shares).heirs =
      r.heirs ++ heirEntries sp ch pa si shares := by
  rw [addHeirsToResult_eq, partitionCite_heirs]

theorem mem_basis_partitionCite (sp ch pa si : List Person)
    (r : InheritanceResult) (s : String) :
    s ∈ (partitionCite sp ch pa si r).calculation_basis ↔
      s ∈ r.calculation_basis ∨
        (s = cit900a ∧ sp ≠ [] ∧ ch ≠ []) ∨
        (s = cit900b ∧ ¬(sp ≠ [] ∧ ch ≠ []) ∧ sp ≠ [] ∧ pa ≠ []) ∨
        (s = cit900c ∧ ¬(sp ≠ [] ∧ ch ≠ []) ∧ ¬(sp ≠ [] ∧ pa ≠ []) ∧
          sp ≠ [] ∧ si ≠ []) := by
  unfold partitionCite
  split <;> rename_i h1
  · rw [mem_addCalculationBasis]
    simp only [Bool.and_eq_true, Bool.not_eq_true', List.isEmpty_eq_false] at h1
    tauto
  · simp only [Bool.and_eq_true, Bool.not_eq_true', List.isEmpty_eq_false] at h1
    split <;> rename_i h2
    · rw [mem_addCalculationBasis]
      simp only [Bool.and_eq_true, Bool.not_eq_true', List.isEmpty_eq_false] at h2
      tauto
    · simp only [Bool.and_eq_true, Bool.not_eq_true', List.isEmpty_eq_false] at h2
      split <;> rename_i h3
      · rw [mem_addCalculationBasis]
        simp only [Bool.and_eq_true, Bool.not_eq_true', List.isEmpty_eq_false] at h3
        tauto
      · simp only [Bool.and_eq_true, Bool.not_eq_true', List.isEmpty_eq_false] at h3
        tauto

theorem validateChildren_snd_heirs (v : HeirValidator) (l : List Person)
    (r : InheritanceResult) : (validateChildren v l r).2.heirs = r.heirs := by
  show (if (l.filter (fun c => validate_child v c)).isEmpty then r
    else addCalculationBasis r cit887).heirs = r.heirs
  split <;> simp [addCalculationBasis_heirs]

theorem validateParents_snd_heirs (v : HeirValidator) (l : List Person)
    (r : InheritanceResult) (b : Bool) :
    (validateParents v l r b).2.heirs = r.heirs := by
  show (if (l.filter (fun p => validate_parent v p b)).isEmpty then r
    else addCalculationBasis r cit889a).heirs = r.heirs
  split <;> simp [addCalculationBasis_heirs]

theorem validateSiblings_snd_heirs (v : HeirValidator) (l : List Person)
    (r : InheritanceResult) (b1 b2 : Bool) :
    (validateSiblings v l r b1 b2).2.heirs = r.heirs := by
  show (if (l.filter (fun s => validate_sibling v s b1 b2)).isEmpty then r
    else addCalculationBasis r cit889b).heirs = r.heirs
  split <;> simp [addCalculationBasis_heirs]

theorem builtResult_heirs (a : CalcArgs) :
    (builtResult a).heirs = heirEntries (validSpousesL a) (validChildrenL a)
      (validParentsL a) (validSiblingsL a) (sharesOf a) := by
  simp only [builtResult, builtFrom, validSpousesL, validChildrenL, validParentsL,
    validSiblingsL, sharesOf, mkValidator, validateSpouses_eq, validateChildren,
    validateParents, validateSiblings, addHeirsToResult_heirs,
    apply_ite InheritanceResult.heirs, addCalculationBasis_heirs, ite_self,
    InheritanceResult.init, List.nil_append]

theorem calculate_eq (a : CalcArgs) :
    calculate a =
      if a.retransfer_heirs_info.isEmpty then builtResult a
      else processRetransferWithInfo (builtResult a) a.retransfer_heirs_info := rfl

theorem processRetransfer_eq_of_none (r : InheritanceResult)
    (i : List (String × List Person))
    (h : r.heirs.filter (fun h => h.person.died_before_division && !h.person.is_alive)
      = []) : processRetransferWithInfo r i = r := by
  simp only [processRetransferWithInfo]
  simp [h]

theorem processRetransfer_heirs (r : InheritanceResult)
    (i : List (String × List Person))
    (h : r.heirs.filter (fun h => h.person.died_before_division && !h.person.is_alive)
      ≠ []) :
    (processRetransferWithInfo r i).heirs =
      r.heirs.filter (fun h => !h.person.died_before_division) ++
      (r.heirs.filter
          (fun h => h.person.died_before_division && !h.person.is_alive)).flatMap
        (fun oh =>
          if (lookupTargets i oh.person.id).isEmpty then [oh]
          else
            (calculateRetransferShares oh.share (lookupTargets i oh.person.id)).map
              (fun ts => retransferHeir oh ts.1 ts.2)) := by
  simp only [processRetransferWithInfo]
  rw [if_neg (by simpa using h)]
  simp [addCalculationBasis_heirs]

theorem processRetransfer_basis_mem (r : InheritanceResult)
    (i : List (String × List Person)) (s : String) (hs : s ≠ cit896) :
    s ∈ (processRetransferWithInfo r i).calculation_basis ↔
      s ∈ r.calculation_basis := by
  by_cases hc : r.heirs.filter
      (fun h => h.person.died_before_division && !h.person.is_alive) = []
  · rw [processRetransfer_eq_of_none r i hc]
  · simp only [processRetransferWithInfo]
    rw [if_neg (by simpa using hc)]
    show s ∈ (addCalculationBasis r cit896).calculation_basis ↔ _
    rw [mem_addCalculationBasis]
    simp [hs]

theorem mem_basis_condAdd {α : Type} (r : InheritanceResult) (c s : String)
    (l : List α) :
    s ∈ (if l.isEmpty then r else addCalculationBasis r c).calculation_basis ↔
      s ∈ r.calculation_basis ∨ (s = c ∧ l ≠ []) := by
  by_cases h : l = []
  · simp [h]
  · rw [if_neg (by simpa using h), mem_addCalculationBasis]
    tauto

set_option maxHeartbeats 1000000 in
theorem mem_basis_builtResult (a : CalcArgs) (s : String) :
    s ∈ (builtResult a).calculation_basis ↔
      (s = cit890 ∧ validSpousesL a ≠ []) ∨
      (s = cit887 ∧ validChildrenL a ≠ []) ∨
      (s = cit889a ∧ validParentsL a ≠ []) ∨
      (s = cit889b ∧ validSiblingsL a ≠ []) ∨
      (s = cit900a ∧ validSpousesL a ≠ [] ∧ validChildrenL a ≠ []) ∨
      (s = cit900b ∧ ¬(validSpousesL a ≠ [] ∧ validChildrenL a ≠ []) ∧
        validSpousesL a ≠ [] ∧ validParentsL a ≠ []) ∨
      (s = cit900c ∧ ¬(validSpousesL a ≠ [] ∧ validChildrenL a ≠ []) ∧
        ¬(validSpousesL a ≠ [] ∧ validParentsL a ≠ []) ∧
        validSpousesL a ≠ [] ∧ validSiblingsL a ≠ []) := by
  simp only [builtResult, builtFrom, validSpousesL, validChildrenL, validParentsL,
    validSiblingsL, mkValidator, validateSpouses_eq, validateChildren,
    validateParents, validateSiblings, addHeirsToResult_eq]
  rw [mem_basis_partitionCite]
  rw [mem_basis_condAdd, mem_basis_condAdd, mem_basis_condAdd, mem_basis_condAdd]
  simp only [InheritanceResult.init, List.not_mem_nil, false_or, or_assoc]

theorem lookupShare_map_keyfun (l : List Person) (g : String → ℚ) (pid : String)
    (h : pid ∈ l.map Person.id) :
    lookupShare (l.map (fun x => (x.id, g x.id))) pid = g pid := by
  induction l with
  | nil => simp at h
  | cons x xs ih =>
    by_cases hx : x.id = pid
    · subst hx
      simp [lookupShare, List.find?]
    · have h' : pid ∈ xs.map Person.id := by
        simp only [List.map_cons, List.mem_cons] at h
        exact h.resolve_left (fun he => hx he.symm)
      have hbx : (x.id == pid) = false := by simp [hx]
      simp only [lookupShare, List.map_cons, List.find?] at ih ⊢
      rw [hbx]
      exact ih h'

theorem lookupShare_append_left (es1 es2 : List (String × ℚ)) (pid : String)
    (h : pid ∈ es1.map Prod.fst) :
    lookupShare (es1 ++ es2) pid = lookupShare es1 pid := by
  unfold lookupShare
  rw [List.find?_append]
  have hs : (es1.find? (fun e => e.1 == pid)).isSome := by
    rw [List.find?_isSome]
    rcases List.mem_map.mp h with ⟨e, he, rfl⟩
    exact ⟨e, he, by simp⟩
  rcases Option.isSome_iff_exists.mp hs with ⟨e, he⟩
  rw [he]
  rfl

theorem lookupShare_append_right (es1 es2 : List (String × ℚ)) (pid : String)
    (h : pid ∉ es1.map Prod.fst) :
    lookupShare (es1 ++ es2) pid = lookupShare es2 pid := by
  unfold lookupShare
  rw [List.find?_append]
  have hn : es1.find? (fun e => e.1 == pid) = none := by
    rw [List.find?_eq_none]
    intro e he hbe
    exact h (List.mem_map.mpr ⟨e, he, by simpa using hbe⟩)
  rw [hn, Option.none_or]

theorem sum_map_of_const (l : List Person) (f : Person → ℚ) (c : ℚ)
    (h : ∀ p ∈ l, f p = c) : (l.map f).sum = l.length * c := by
  rw [List.map_congr_left h, List.map_const', List.sum_replicate, nsmul_eq_mul]

theorem siblingWeight_pos (b : List (String × BloodType)) (pid : String) :
    0 < siblingWeight b pid := by
  unfold siblingWeight
  cases lookupBlood b pid <;> norm_num

theorem weightSum_pos (si : List Person) (b : List (String × BloodType))
    (h : si ≠ []) : 0 < (si.map (fun s => siblingWeight b s.id)).sum := by
  apply List.sum_pos
  · intro x hx
    rcases List.mem_map.mp hx with ⟨p, _, rfl⟩
    exact siblingWeight_pos b p.id
  · simpa using h

theorem sum_map_weighted (si : List Person) (b : List (String × BloodType))
    (t : ℚ) (f : Person → ℚ) (h : si ≠ [])
    (hf : ∀ p ∈ si, f p =
      t * siblingWeight b p.id / (si.map (fun s => siblingWeight b s.id)).sum) :
    (si.map f).sum = t := by
  have hW : (si.map (fun s => siblingWeight b s.id)).sum ≠ 0 :=
    ne_of_gt (weightSum_pos si b h)
  rw [List.map_congr_left hf]
  have heach : ∀ p ∈ si,
      t * siblingWeight b p.id / (si.map (fun s => siblingWeight b s.id)).sum =
      (t / (si.map (fun s => siblingWeight b s.id)).sum) * siblingWeight b p.id := by
    intro p _
    ring
  rw [List.map_congr_left heach, List.sum_map_mul_left,
    div_mul_cancel₀ t hW]

theorem sum_map_filter_split (l : List Heir) (p : Heir → Bool) :
    ((l.filter p).map Heir.share).sum +
      ((l.filter (fun h => !p h)).map Heir.share).sum = (l.map Heir.share).sum := by
  induction l with
  | nil => simp
  | cons x xs ih =>
    by_cases hx : p x <;> simp [List.filter_cons, hx, List.sum_cons] <;>
      linarith [ih]

theorem sum_map_flatMap (l : List Heir) (f : Heir → List Heir) :
    ((l.flatMap f).map Heir.share).sum =
      (l.map (fun x => ((f x).map Heir.share).sum)).sum := by
  induction l with
  | nil => simp
  | cons x xs ih => simp [List.flatMap_cons, ih]

theorem retransfer_branch_sum (oh : Heir) (targets : List Person)
    (h : targets ≠ []) :
    (((calculateRetransferShares oh.share targets).map
        (fun ts => retransferHeir oh ts.1 ts.2)).map Heir.share).sum = oh.share := by
  have hn : ((targets.length : ℚ)) ≠ 0 :=
    Nat.cast_ne_zero.mpr (fun h0 => h (List.length_eq_zero.mp h0))
  simp only [calculateRetransferShares]
  rw [if_neg (by simpa using h), List.map_map, List.map_map]
  refine Eq.trans
    (sum_map_of_const targets _ (oh.share / (targets.length : ℚ)) (fun p _ => rfl)) ?_
  exact mul_div_cancel₀ oh.share hn

theorem processRetransfer_sum (r : InheritanceResult)
    (i : List (String × List Person))
    (hflag : ∀ h ∈ r.heirs, h.person.died_before_division = true →
      h.person.is_alive = false) :
    ((processRetransferWithInfo r i).heirs.map Heir.share).sum =
      (r.heirs.map Heir.share).sum := by
  by_cases hc : r.heirs.filter
      (fun h => h.person.died_before_division && !h.person.is_alive) = []
  · rw [processRetransfer_eq_of_none r i hc]
  · rw [processRetransfer_heirs r i hc, List.map_append, List.sum_append,
      sum_map_flatMap]
    have hbranch : ∀ oh ∈ r.heirs.filter
        (fun h => h.person.died_before_division && !h.person.is_alive),
        ((fun oh =>
          ((if (lookupTargets i oh.person.id).isEmpty then [oh]
            else (calculateRetransferShares oh.share
                (lookupTargets i oh.person.id)).map
              (fun ts => retransferHeir oh ts.1 ts.2)).map Heir.share).sum) oh)
          = Heir.share oh := by
      intro oh _
      by_cases ht : lookupTargets i oh.person.id = []
      · simp [ht]
      · simp only
        rw [if_neg (by simpa using ht)]
        exact retransfer_branch_sum oh _ ht
    rw [List.map_congr_left hbranch]
    have hfe : r.heirs.filter
        (fun h => h.person.died_before_division && !h.person.is_alive) =
        r.heirs.filter (fun h => h.person.died_before_division) := by
      apply List.filter_congr
      intro x hx
      by_cases hd : x.person.died_before_division
      · simp [hd, hflag x hx hd]
      · simp [hd]
    rw [hfe]
    have := sum_map_filter_split r.heirs (fun h => h.person.died_before_division)
    linarith [this]

theorem heirEntries_share_map (sp ch pa si : List Person)
    (shares : List (String × ℚ)) :
    (heirEntries sp ch pa si shares).map Heir.share =
      sp.map (fun p => lookupShare shares p.id) ++
      ch.map (fun p => lookupShare shares p.id) ++
      pa.map (fun p => lookupShare shares p.id) ++
      si.map (fun p => lookupShare shares p.id) := by
  simp [heirEntries, List.map_append, List.map_map, Function.comp_def, mkHeirEntry]

theorem keys_of_entry_map (l : List Person) (g : String → ℚ) :
    (l.map (fun x => (x.id, g x.id))).map Prod.fst = l.map Person.id := by
  rw [List.map_map]
  rfl

theorem length_mul_div_cancel {α : Type} (l : List α) (t : ℚ) (h : l ≠ []) :
    (l.length : ℚ) * (t / (l.length : ℚ)) = t :=
  mul_div_cancel₀ t (Nat.cast_ne_zero.mpr (fun h0 => h (List.length_eq_zero.mp h0)))

theorem sum_case_spouse_only (sp : List Person) (blood : List (String × BloodType))
    (hsp : sp ≠ []) :
    ((heirEntries sp [] [] [] (calculate_shares sp [] [] [] blood)).map
      Heir.share).sum = 1 := by
  have hsp' : sp.isEmpty = false := by simpa using hsp
  have hsh : calculate_shares sp [] [] [] blood =
      sp.map (fun s => (s.id, (1 : ℚ) / (sp.length : ℚ))) := by
    simp [calculate_shares, hsp']
  rw [heirEntries_share_map]
  simp only [List.map_nil, List.append_nil]
  rw [sum_map_of_const sp _ ((1 : ℚ) / (sp.length : ℚ))
    (fun p hp => by
      rw [hsh]
      exact lookupShare_map_keyfun sp (fun _ => (1 : ℚ) / (sp.length : ℚ)) p.id
        (List.mem_map_of_mem _ hp))]
  exact length_mul_div_cancel sp 1 hsp

theorem sum_case_children (sp ch : List Person) (blood : List (String × BloodType))
    (hch : ch ≠ []) (hnodup : ((sp ++ ch).map Person.id).Nodup) :
    ((heirEntries sp ch [] [] (calculate_shares sp ch [] [] blood)).map
      Heir.share).sum = 1 := by
  have hch' : ch.isEmpty = false := by simpa using hch
  rw [heirEntries_share_map]
  simp only [List.map_nil, List.append_nil]
  rw [List.sum_append]
  by_cases hsp : sp = []
  · subst hsp
    have hsh : calculate_shares [] ch [] [] blood =
        ch.map (fun c => (c.id, (1 : ℚ) / (ch.length : ℚ))) := by
      simp [calculate_shares, hch']
    rw [sum_map_of_const ch _ ((1 : ℚ) / (ch.length : ℚ))
      (fun p hp => by
        rw [hsh]
        exact lookupShare_map_keyfun ch (fun _ => (1 : ℚ) / (ch.length : ℚ)) p.id
          (List.mem_map_of_mem _ hp))]
    simp only [List.map_nil, List.sum_nil, zero_add]
    exact length_mul_div_cancel ch 1 hch
  · have hsp' : sp.isEmpty = false := by simpa using hsp
    have hsh : calculate_shares sp ch [] [] blood =
        sp.map (fun s => (s.id, (1/2 : ℚ) / (sp.length : ℚ))) ++
        ch.map (fun c => (c.id, (1/2 : ℚ) / (ch.length : ℚ))) := by
      simp [calculate_shares, hch', hsp']
    rw [List.map_append, List.nodup_append] at hnodup
    obtain ⟨-, -, hdisj⟩ := hnodup
    rw [sum_map_of_const sp _ ((1/2 : ℚ) / (sp.length : ℚ))
      (fun p hp => by
        rw [hsh, lookupShare_append_left]
        · exact lookupShare_map_keyfun sp (fun _ => (1/2 : ℚ) / (sp.length : ℚ)) p.id
            (List.mem_map_of_mem _ hp)
        · rw [keys_of_entry_map sp (fun _ => (1/2 : ℚ) / (sp.length : ℚ))]
          exact List.mem_map_of_mem _ hp)]
    rw [sum_map_of_const ch _ ((1/2 : ℚ) / (ch.length : ℚ))
      (fun p hp => by
        rw [hsh, lookupShare_append_right]
        · exact lookupShare_map_keyfun ch (fun _ => (1/2 : ℚ) / (ch.length : ℚ)) p.id
            (List.mem_map_of_mem _ hp)
        · rw [keys_of_entry_map sp (fun _ => (1/2 : ℚ) / (sp.length : ℚ))]
          exact fun hmem => hdisj hmem (List.mem_map_of_mem _ hp))]
    rw [length_mul_div_cancel sp (1/2) hsp, length_mul_div_cancel ch (1/2) hch]
    norm_num

theorem sum_case_parents (sp pa : List Person) (blood : List (String × BloodType))
    (hpa : pa ≠ []) (hnodup : ((sp ++ pa).map Person.id).Nodup) :
    ((heirEntries sp [] pa [] (calculate_shares sp [] pa [] blood)).map
      Heir.share).sum = 1 := by
  have hpa' : pa.isEmpty = false := by simpa using hpa
  rw [heirEntries_share_map]
  simp only [List.map_nil, List.append_nil, List.nil_append]
  rw [List.sum_append]
  by_cases hsp : sp = []
  · subst hsp
    have hsh : calculate_shares [] [] pa [] blood =
        pa.map (fun p => (p.id, (1 : ℚ) / (pa.length : ℚ))) := by
      simp [calculate_shares, hpa']
    rw [sum_map_of_const pa _ ((1 : ℚ) / (pa.length : ℚ))
      (fun p hp => by
        rw [hsh]
        exact lookupShare_map_keyfun pa (fun _ => (1 : ℚ) / (pa.length : ℚ)) p.id
          (List.mem_map_of_mem _ hp))]
    simp only [List.map_nil, List.sum_nil, zero_add]
    exact length_mul_div_cancel pa 1 hpa
  · have hsp' : sp.isEmpty = false := by simpa using hsp
    have hsh : calculate_shares sp [] pa [] blood =
        sp.map (fun s => (s.id, (2/3 : ℚ) / (sp.length : ℚ))) ++
        pa.map (fun p => (p.id, (1/3 : ℚ) / (pa.length : ℚ))) := by
      simp [calculate_shares, hpa', hsp']
    rw [List.map_append, List.nodup_append] at hnodup
    obtain ⟨-, -, hdisj⟩ := hnodup
    rw [sum_map_of_const sp _ ((2/3 : ℚ) / (sp.length : ℚ))
      (fun p hp => by
        rw [hsh, lookupShare_append_left]
        · exact lookupShare_map_keyfun sp (fun _ => (2/3 : ℚ) / (sp.length : ℚ)) p.id
            (List.mem_map_of_mem _ hp)
        · rw [keys_of_entry_map sp (fun _ => (2/3 : ℚ) / (sp.length : ℚ))]
          exact List.mem_map_of_mem _ hp)]
    rw [sum_map_of_const pa _ ((1/3 : ℚ) / (pa.length : ℚ))
      (fun p hp => by
        rw [hsh, lookupShare_append_right]
        · exact lookupShare_map_keyfun pa (fun _ => (1/3 : ℚ) / (pa.length : ℚ)) p.id
            (List.mem_map_of_mem _ hp)
        · rw [keys_of_entry_map sp (fun _ => (2/3 : ℚ) / (sp.length : ℚ))]
          exact fun hmem => hdisj hmem (List.mem_map_of_mem _ hp))]
    rw [length_mul_div_cancel sp (2/3) hsp, length_mul_div_cancel pa (1/3) hpa]
    norm_num

theorem sum_case_siblings (sp si : List Person) (blood : List (String × BloodType))
    (hsi : si ≠ []) (hnodup : ((sp ++ si).map Person.id).Nodup) :
    ((heirEntries sp [] [] si (calculate_shares sp [] [] si blood)).map
      Heir.share).sum = 1 := by
  have hsi' : si.isEmpty = false := by simpa using hsi
  rw [heirEntries_share_map]
  simp only [List.map_nil, List.append_nil, List.nil_append]
  rw [List.sum_append]
  by_cases hsp : sp = []
  · subst hsp
    have hsh : calculate_shares [] [] [] si blood =
        si.map (fun s => (s.id, (1 : ℚ) * siblingWeight blood s.id /
          (si.map (fun x => siblingWeight blood x.id)).sum)) := by
      simp [calculate_shares, hsi']
    rw [sum_map_weighted si blood 1 _ hsi
      (fun p hp => by
        rw [hsh]
        exact lookupShare_map_keyfun si
          (fun pid => (1 : ℚ) * siblingWeight blood pid /
            (si.map (fun x => siblingWeight blood x.id)).sum) p.id
          (List.mem_map_of_mem _ hp))]
    simp
  · have hsp' : sp.isEmpty = false := by simpa using hsp
    have hsh : calculate_shares sp [] [] si blood =
        sp.map (fun s => (s.id, (3/4 : ℚ) / (sp.length : ℚ))) ++
        si.map (fun s => (s.id, (1/4 : ℚ) * siblingWeight blood s.id /
          (si.map (fun x => siblingWeight blood x.id)).sum)) := by
      simp [calculate_shares, hsi', hsp']
    rw [List.map_append, List.nodup_append] at hnodup
    obtain ⟨-, -, hdisj⟩ := hnodup
    rw [sum_map_of_const sp _ ((3/4 : ℚ) / (sp.length : ℚ))
      (fun p hp => by
        rw [hsh, lookupShare_append_left]
        · exact lookupShare_map_keyfun sp (fun _ => (3/4 : ℚ) / (sp.length : ℚ)) p.id
            (List.mem_map_of_mem _ hp)
        · rw [keys_of_entry_map sp (fun _ => (3/4 : ℚ) / (sp.length : ℚ))]
          exact List.mem_map_of_mem _ hp)]
    rw [sum_map_weighted si blood (1/4) _ hsi
      (fun p hp => by
        rw [hsh, lookupShare_append_right]
        · exact lookupShare_map_keyfun si
            (fun pid => (1/4 : ℚ) * siblingWeight blood pid /
              (si.map (fun x => siblingWeight blood x.id)).sum) p.id
            (List.mem_map_of_mem _ hp)
        · rw [keys_of_entry_map sp (fun _ => (3/4 : ℚ) / (sp.length : ℚ))]
          exact fun hmem => hdisj hmem (List.mem_map_of_mem _ hp))]
    rw [length_mul_div_cancel sp (3/4) hsp]
    norm_num

theorem shares_sum_one (sp ch pa si : List Person)
    (blood : List (String × BloodType))
    (hnodup : ((sp ++ ch ++ pa ++ si).map Person.id).Nodup)
    (hpa : ch ≠ [] → pa = [])
    (hsi : ch ≠ [] ∨ pa ≠ [] → si = [])
    (hne : ¬(sp = [] ∧ ch = [] ∧ pa = [] ∧ si = [])) :
    ((heirEntries sp ch pa si (calculate_shares sp ch pa si blood)).map
      Heir.share).sum = 1 := by
  by_cases hch : ch = []
  · subst hch
    by_cases hpa' : pa = []
    · subst hpa'
      by_cases hsi' : si = []
      · subst hsi'
        have hsp : sp ≠ [] := by
          intro h
          exact hne ⟨h, rfl, rfl, rfl⟩
        exact sum_case_spouse_only sp blood hsp
      · exact sum_case_siblings sp si blood hsi' (by simpa using hnodup)
    · have := hsi (Or.inr hpa')
      subst this
      exact sum_case_parents sp pa blood hpa' (by simpa using hnodup)
  · have h1 := hpa hch
    subst h1
    have h2 := hsi (Or.inl hch)
    subst h2
    exact sum_case_children sp ch blood hch (by simpa using hnodup)

theorem validParentsL_of_first (a : CalcArgs) (h : validChildrenL a ≠ []) :
    validParentsL a = [] := by
  unfold validParentsL
  have h' : (validChildrenL a).isEmpty = false := by simpa using h
  simp [h', validate_parent]

theorem validSiblingsL_of_upper (a : CalcArgs)
    (h : validChildrenL a ≠ [] ∨ validParentsL a ≠ []) : validSiblingsL a = [] := by
  unfold validSiblingsL
  rcases h with h | h
  · have h' : (validChildrenL a).isEmpty = false := by simpa using h
    simp [h', validate_sibling]
  · have h' : (validParentsL a).isEmpty = false := by simpa using h
    simp [h', validate_sibling]

theorem mem_heirEntries (sp ch pa si : List Person) (shares : List (String × ℚ))
    (h : Heir) :
    h ∈ heirEntries sp ch pa si shares ↔
      (∃ p ∈ sp, mkHeirEntry p HeritageRank.SPOUSE (lookupShare shares p.id) = h) ∨
      (∃ p ∈ ch, mkHeirEntry p HeritageRank.FIRST (lookupShare shares p.id) = h) ∨
      (∃ p ∈ pa, mkHeirEntry p HeritageRank.SECOND (lookupShare shares p.id) = h) ∨
      (∃ p ∈ si, mkHeirEntry p HeritageRank.THIRD (lookupShare shares p.id) = h) := by
  simp [heirEntries, List.mem_append, List.mem_map, or_assoc]

theorem heirEntries_retransfer_fields (sp ch pa si : List Person)
    (shares : List (String × ℚ)) (h : Heir)
    (hmem : h ∈ heirEntries sp ch pa si shares) :
    h.is_retransfer = false ∧ h.retransfer_from = none := by
  rcases (mem_heirEntries sp ch pa si shares h).mp hmem with
    ⟨p, _, rfl⟩ | ⟨p, _, rfl⟩ | ⟨p, _, rfl⟩ | ⟨p, _, rfl⟩ <;> exact ⟨rfl, rfl⟩

theorem heirEntries_person_mem (sp ch pa si : List Person)
    (shares : List (String × ℚ)) (h : Heir)
    (hmem : h ∈ heirEntries sp ch pa si shares) :
    h.person ∈ sp ++ ch ++ pa ++ si := by
  rcases (mem_heirEntries sp ch pa si shares h).mp hmem with
    ⟨p, hp, rfl⟩ | ⟨p, hp, rfl⟩ | ⟨p, hp, rfl⟩ | ⟨p, hp, rfl⟩ <;>
    simp [mkHeirEntry, hp]

theorem rank_cases_heirEntries (sp ch pa si : List Person)
    (shares : List (String × ℚ)) (h : Heir)
    (hmem : h ∈ heirEntries sp ch pa si shares) :
    h.rank = HeritageRank.SPOUSE ∨ h.rank = HeritageRank.FIRST ∨
      (h.rank = HeritageRank.SECOND ∧ pa ≠ []) ∨
      (h.rank = HeritageRank.THIRD ∧ si ≠ []) := by
  rcases (mem_heirEntries sp ch pa si shares h).mp hmem with
    ⟨p, hp, rfl⟩ | ⟨p, hp, rfl⟩ | ⟨p, hp, rfl⟩ | ⟨p, hp, rfl⟩
  · exact Or.inl rfl
  · exact Or.inr (Or.inl rfl)
  · exact Or.inr (Or.inr (Or.inl ⟨rfl, List.ne_nil_of_mem hp⟩))
  · exact Or.inr (Or.inr (Or.inr ⟨rfl, List.ne_nil_of_mem hp⟩))

theorem processRetransfer_rank (r : InheritanceResult)
    (i : List (String × List Person)) (h' : Heir)
    (hmem : h' ∈ (processRetransferWithInfo r i).heirs) :
    ∃ h ∈ r.heirs, h'.rank = h.rank := by
  by_cases hc : r.heirs.filter
      (fun h => h.person.died_before_division && !h.person.is_alive) = []
  · rw [processRetransfer_eq_of_none r i hc] at hmem
    exact ⟨h', hmem, rfl⟩
  · rw [processRetransfer_heirs r i hc] at hmem
    rcases List.mem_append.mp hmem with hcar | hext
    · exact ⟨h', (List.mem_filter.mp hcar).1, rfl⟩
    · rcases List.mem_flatMap.mp hext with ⟨oh, hoh, hbr⟩
      have hohmem : oh ∈ r.heirs := (List.mem_filter.mp hoh).1
      by_cases ht : (lookupTargets i oh.person.id).isEmpty
      · rw [if_pos ht] at hbr
        rcases List.mem_singleton.mp hbr with rfl
        exact ⟨h', hohmem, rfl⟩
      · rw [if_neg ht] at hbr
        rcases List.mem_map.mp hbr with ⟨ts, _, rfl⟩
        exact ⟨oh, hohmem, rfl⟩

theorem builtResult_ne_nil_cases (a : CalcArgs)
    (h : (builtResult a).heirs ≠ []) :
    ¬(validSpousesL a = [] ∧ validChildrenL a = [] ∧ validParentsL a = [] ∧
      validSiblingsL a = []) := by
  rintro ⟨h1, h2, h3, h4⟩
  apply h
  rw [builtResult_heirs, h1, h2, h3, h4]
  simp [heirEntries]

theorem calculate_heirs_nil_of_built_nil (a : CalcArgs)
    (h : (builtResult a).heirs = []) : (calculate a).heirs = [] := by
  rw [calculate_eq]
  by_cases hi : a.retransfer_heirs_info.isEmpty
  · rw [if_pos hi]; exact h
  · rw [if_neg hi, processRetransfer_eq_of_none _ _ (by rw [h]; rfl)]
    exact h

/-- Claim C8: calculate is deterministic across sequential calls on the same
InheritanceCalculator instance: the result is the same function of the
arguments whatever validator state the instance holds when the call starts,
because the validator's decedent and all three exclusion lists are reassigned
at the start of every call, and calculate is total (raises nothing). -/
theorem c8_calculate_deterministic (v1 v2 : HeirValidator) (a : CalcArgs) :
    (calculateFrom v1 a).1 = (calculateFrom v2 a).1 := rfl

/-- Claim C10: when the retransfer pass does not rewrite the heirs list
(empty mapping, or no heir flagged died-before-division and dead), the heirs
list is exactly the SPOUSE entries, then FIRST, then SECOND, then THIRD, each
group in the order of its validated input list. -/
theorem c10_heirs_rank_grouped (a : CalcArgs)
    (hyp : a.retransfer_heirs_info = [] ∨
      ∀ h ∈ (builtResult a).heirs,
        ¬(h.person.died_before_division = true ∧ h.person.is_alive = false)) :
    (calculate a).heirs = heirEntries (validSpousesL a) (validChildrenL a)
      (validParentsL a) (validSiblingsL a) (sharesOf a) := by
  rw [calculate_eq]
  by_cases hinfo : a.retransfer_heirs_info.isEmpty
  · rw [if_pos hinfo, builtResult_heirs]
  · rcases hyp with hy | hy
    · exact absurd (by simp [hy]) hinfo
    · rw [if_neg hinfo, processRetransfer_eq_of_none, builtResult_heirs]
      rw [List.filter_eq_nil_iff]
      intro h hh
      simp only [Bool.and_eq_true, Bool.not_eq_true', not_and]
      intro hflag
      by_contra halive
      exact hy h hh ⟨hflag, by simpa using halive⟩

/-- Claim C3: a validated child excludes every SECOND- and THIRD-rank entry
from the result, a validated parent excludes every THIRD-rank entry, and a
SPOUSE-rank Heir record is built for every validated spouse regardless of
which blood rank is populated. -/
theorem c3_rank_exhaustion (a : CalcArgs) :
    (validChildrenL a ≠ [] → ∀ h ∈ (calculate a).heirs,
      h.rank ≠ HeritageRank.SECOND ∧ h.rank ≠ HeritageRank.THIRD) ∧
    (validParentsL a ≠ [] → ∀ h ∈ (calculate a).heirs,
      h.rank ≠ HeritageRank.THIRD) ∧
    (∀ p ∈ validSpousesL a,
      mkHeirEntry p HeritageRank.SPOUSE (lookupShare (sharesOf a) p.id) ∈
        (builtResult a).heirs) := by
  have hrank : ∀ h' ∈ (calculate a).heirs, ∃ h ∈ (builtResult a).heirs,
      h'.rank = h.rank := by
    intro h' hmem
    rw [calculate_eq] at hmem
    by_cases hinfo : a.retransfer_heirs_info.isEmpty
    · rw [if_pos hinfo] at hmem
      exact ⟨h', hmem, rfl⟩
    · rw [if_neg hinfo] at hmem
      exact processRetransfer_rank _ _ h' hmem
  refine ⟨?_, ?_, ?_⟩
  · intro hch h' hmem
    rcases hrank h' hmem with ⟨h, hh, heq⟩
    rw [builtResult_heirs] at hh
    rcases rank_cases_heirEntries _ _ _ _ _ h hh with h1 | h1 | ⟨h1, hne⟩ | ⟨h1, hne⟩
    · rw [heq, h1]; exact ⟨by simp, by simp⟩
    · rw [heq, h1]; exact ⟨by simp, by simp⟩
    · exact absurd (validParentsL_of_first a hch) hne
    · exact absurd (validSiblingsL_of_upper a (Or.inl hch)) hne
  · intro hpa h' hmem
    rcases hrank h' hmem with ⟨h, hh, heq⟩
    rw [builtResult_heirs] at hh
    rcases rank_cases_heirEntries _ _ _ _ _ h hh with h1 | h1 | ⟨h1, -⟩ | ⟨h1, hne⟩
    · rw [heq, h1]; simp
    · rw [heq, h1]; simp
    · rw [heq, h1]; simp
    · exact absurd (validSiblingsL_of_upper a (Or.inr hpa)) hne
  · intro p hp
    rw [builtResult_heirs, mem_heirEntries]
    exact Or.inl ⟨p, hp, rfl⟩

/-- Claim C5 (amended): an empty retransfer mapping leaves the heirs list
exactly as built; every heir without the died_before_division flag is carried
over unchanged; and every heir with the flag that is also dead and has no
listed targets is carried over unchanged. -/
theorem c5_retransfer_frame (a : CalcArgs) :
    (a.retransfer_heirs_info = [] → (calculate a).heirs = (builtResult a).heirs) ∧
    (∀ h ∈ (builtResult a).heirs, h.person.died_before_division = false →
      h ∈ (calculate a).heirs) ∧
    (∀ h ∈ (builtResult a).heirs, h.person.died_before_division = true →
      h.person.is_alive = false →
      lookupTargets a.retransfer_heirs_info h.person.id = [] →
      h ∈ (calculate a).heirs) := by
  refine ⟨?_, ?_, ?_⟩
  · intro hinfo
    rw [calculate_eq, if_pos (by simp [hinfo])]
  · intro h hmem hflag
    rw [calculate_eq]
    by_cases hinfo : a.retransfer_heirs_info.isEmpty
    · rw [if_pos hinfo]; exact hmem
    · rw [if_neg hinfo]
      by_cases hc : (builtResult a).heirs.filter
          (fun h => h.person.died_before_division && !h.person.is_alive) = []
      · rw [processRetransfer_eq_of_none _ _ hc]; exact hmem
      · rw [processRetransfer_heirs _ _ hc]
        exact List.mem_append_left _
          (List.mem_filter.mpr ⟨hmem, by simp [hflag]⟩)
  · intro h hmem hflag hdead htg
    rw [calculate_eq]
    by_cases hinfo : a.retransfer_heirs_info.isEmpty
    · rw [if_pos hinfo]; exact hmem
    · rw [if_neg hinfo]
      by_cases hc : (builtResult a).heirs.filter
          (fun h => h.person.died_before_division && !h.person.is_alive) = []
      · rw [processRetransfer_eq_of_none _ _ hc]; exact hmem
      · rw [processRetransfer_heirs _ _ hc]
        refine List.mem_append_right _ (List.mem_flatMap.mpr ⟨h, ?_, ?_⟩)
        · exact List.mem_filter.mpr ⟨hmem, by simp [hflag, hdead]⟩
        · rw [if_pos (by simp [htg])]
          exact List.mem_singleton.mpr rfl

/-- Claim C6: when the retransfer mapping is non-empty and some heir is
flagged died-before-division and dead, every heir flagged died-before-division
but still alive disappears from the result: its entry is not carried over and
no retransfer entry references it as origin. -/
theorem c6_alive_flagged_dropped (a : CalcArgs)
    (hinfo : a.retransfer_heirs_info ≠ [])
    (hdead : ∃ h ∈ (builtResult a).heirs,
      h.person.died_before_division = true ∧ h.person.is_alive = false) :
    ∀ h ∈ (builtResult a).heirs, h.person.died_before_division = true →
      h.person.is_alive = true →
      h ∉ (calculate a).heirs ∧
      ∀ h' ∈ (calculate a).heirs, h'.retransfer_from ≠ some h.person := by
  intro h hmem hflag halive
  rcases hdead with ⟨hd, hdmem, hdflag, hddead⟩
  have hc : (builtResult a).heirs.filter
      (fun h => h.person.died_before_division && !h.person.is_alive) ≠ [] :=
    List.ne_nil_of_mem (List.mem_filter.mpr ⟨hdmem, by simp [hdflag, hddead]⟩)
  have hcalc : (calculate a).heirs =
      (builtResult a).heirs.filter (fun h => !h.person.died_before_division) ++
      ((builtResult a).heirs.filter
          (fun h => h.person.died_before_division && !h.person.is_alive)).flatMap
        (fun oh =>
          if (lookupTargets a.retransfer_heirs_info oh.person.id).isEmpty then [oh]
          else
            (calculateRetransferShares oh.share
                (lookupTargets a.retransfer_heirs_info oh.person.id)).map
              (fun ts => retransferHeir oh ts.1 ts.2)) := by
    rw [calculate_eq, if_neg (by simpa using hinfo)]
    exact processRetransfer_heirs _ _ hc
  have hfields := heirEntries_retransfer_fields _ _ _ _ _ h
    (by rw [builtResult_heirs] at hmem; exact hmem)
  constructor
  · intro habs
    rw [hcalc] at habs
    rcases List.mem_append.mp habs with hcar | hext
    · have := (List.mem_filter.mp hcar).2
      rw [hflag] at this
      simp at this
    · rcases List.mem_flatMap.mp hext with ⟨oh, hoh, hbr⟩
      have hohp := (List.mem_filter.mp hoh).2
      simp only [Bool.and_eq_true, Bool.not_eq_true'] at hohp
      by_cases ht : (lookupTargets a.retransfer_heirs_info oh.person.id).isEmpty
      · rw [if_pos ht] at hbr
        rcases List.mem_singleton.mp hbr with rfl
        rw [halive] at hohp
        simp at hohp
      · rw [if_neg ht] at hbr
        rcases List.mem_map.mp hbr with ⟨ts, -, hts⟩
        have : h.is_retransfer = true := by rw [← hts]; rfl
        rw [hfields.1] at this
        simp at this
  · intro h' hmem' habs
    rw [hcalc] at hmem'
    rcases List.mem_append.mp hmem' with hcar | hext
    · have h'built : h' ∈ (builtResult a).heirs := (List.mem_filter.mp hcar).1
      have := (heirEntries_retransfer_fields _ _ _ _ _ h'
        (by rw [builtResult_heirs] at h'built; exact h'built)).2
      rw [this] at habs
      exact Option.noConfusion habs
    · rcases List.mem_flatMap.mp hext with ⟨oh, hoh, hbr⟩
      have hohbuilt : oh ∈ (builtResult a).heirs := (List.mem_filter.mp hoh).1
      have hohp := (List.mem_filter.mp hoh).2
      simp only [Bool.and_eq_true, Bool.not_eq_true'] at hohp
      by_cases ht : (lookupTargets a.retransfer_heirs_info oh.person.id).isEmpty
      · rw [if_pos ht] at hbr
        rcases List.mem_singleton.mp hbr with rfl
        have := (heirEntries_retransfer_fields _ _ _ _ _ h'
          (by rw [builtResult_heirs] at hohbuilt; exact hohbuilt)).2
        rw [this] at habs
        exact Option.noConfusion habs
      · rw [if_neg ht] at hbr
        rcases List.mem_map.mp hbr with ⟨ts, -, hts⟩
        have hfrom : h'.retransfer_from = some oh.person := by rw [← hts]; rfl
        rw [hfrom] at habs
        have hpe : oh.person = h.person := Option.some.inj habs
        rw [hpe, halive] at hohp
        exact Bool.noConfusion hohp.2

/-- Claim C2 (amended): for a non-empty retransfer mapping, every heir whose
person is flagged died-before-division and is dead, and whose id maps to a
non-empty target list, is replaced: for each listed target the result
contains a retransfer Heir with the original rank, share equal to the
original share divided by the number of targets, the retransfer flag set,
the original person recorded, and the original share recorded; the original
entry itself is gone. -/
theorem c2_retransfer_replacement (a : CalcArgs)
    (hinfo : a.retransfer_heirs_info ≠ [])
    (h : Heir) (hmem : h ∈ (builtResult a).heirs)
    (hflag : h.person.died_before_division = true)
    (hdead : h.person.is_alive = false)
    (htg : lookupTargets a.retransfer_heirs_info h.person.id ≠ []) :
    (∀ t ∈ lookupTargets a.retransfer_heirs_info h.person.id,
      retransferHeir h t (h.share /
        ((lookupTargets a.retransfer_heirs_info h.person.id).length : ℚ)) ∈
        (calculate a).heirs) ∧
    h ∉ (calculate a).heirs := by
  have hc : (builtResult a).heirs.filter
      (fun h => h.person.died_before_division && !h.person.is_alive) ≠ [] :=
    List.ne_nil_of_mem (List.mem_filter.mpr ⟨hmem, by simp [hflag, hdead]⟩)
  have hcalc : (calculate a).heirs =
      (builtResult a).heirs.filter (fun h => !h.person.died_before_division) ++
      ((builtResult a).heirs.filter
          (fun h => h.person.died_before_division && !h.person.is_alive)).flatMap
        (fun oh =>
          if (lookupTargets a.retransfer_heirs_info oh.person.id).isEmpty then [oh]
          else
            (calculateRetransferShares oh.share
                (lookupTargets a.retransfer_heirs_info oh.person.id)).map
              (fun ts => retransferHeir oh ts.1 ts.2)) := by
    rw [calculate_eq, if_neg (by simpa using hinfo)]
    exact processRetransfer_heirs _ _ hc
  have hfields := heirEntries_retransfer_fields _ _ _ _ _ h
    (by rw [builtResult_heirs] at hmem; exact hmem)
  constructor
  · intro t ht
    rw [hcalc]
    refine List.mem_append_right _ (List.mem_flatMap.mpr ⟨h, ?_, ?_⟩)
    · exact List.mem_filter.mpr ⟨hmem, by simp [hflag, hdead]⟩
    · rw [if_neg (by simpa using htg)]
      refine List.mem_map.mpr ⟨(t, h.share /
        ((lookupTargets a.retransfer_heirs_info h.person.id).length : ℚ)), ?_, rfl⟩
      simp only [calculateRetransferShares]
      rw [if_neg (by simpa using htg)]
      exact List.mem_map.mpr ⟨t, ht, rfl⟩
  · intro habs
    rw [hcalc] at habs
    rcases List.mem_append.mp habs with hcar | hext
    · have := (List.mem_filter.mp hcar).2
      rw [hflag] at this
      simp at this
    · rcases List.mem_flatMap.mp hext with ⟨oh, hoh, hbr⟩
      by_cases ht : (lookupTargets a.retransfer_heirs_info oh.person.id).isEmpty
      · rw [if_pos ht] at hbr
        rcases List.mem_singleton.mp hbr with rfl
        rw [List.isEmpty_eq_true] at ht
        exact htg ht
      · rw [if_neg ht] at hbr
        rcases List.mem_map.mp hbr with ⟨ts, -, hts⟩
        have : h.is_retransfer = true := by rw [← hts]; rfl
        rw [hfields.1] at this
        simp at this

theorem builtResult_person_mem (a : CalcArgs) (h : Heir)
    (hmem : h ∈ (builtResult a).heirs) :
    h.person ∈ a.spouses ++ a.children ++ a.parents ++ a.siblings := by
  rw [builtResult_heirs] at hmem
  have := heirEntries_person_mem _ _ _ _ _ h hmem
  have hsub : (validSpousesL a ++ validChildrenL a ++ validParentsL a ++
        validSiblingsL a).Sublist
      (a.spouses ++ a.children ++ a.parents ++ a.siblings) := by
    refine List.Sublist.append (List.Sublist.append (List.Sublist.append ?_ ?_) ?_) ?_
    all_goals exact List.filter_sublist _
  exact hsub.mem this

theorem validated_ids_nodup (a : CalcArgs)
    (hnodup : ((a.spouses ++ a.children ++ a.parents ++ a.siblings).map
      Person.id).Nodup) :
    ((validSpousesL a ++ validChildrenL a ++ validParentsL a ++
      validSiblingsL a).map Person.id).Nodup := by
  have hsub : (validSpousesL a ++ validChildrenL a ++ validParentsL a ++
        validSiblingsL a).Sublist
      (a.spouses ++ a.children ++ a.parents ++ a.siblings) := by
    refine List.Sublist.append (List.Sublist.append (List.Sublist.append ?_ ?_) ?_) ?_
    all_goals exact List.filter_sublist _
  exact (hsub.map Person.id).nodup hnodup

/-- Claim C1 (amended): when no candidate person carries the
died-before-division flag while still alive (and person ids are distinct, as
the data model guarantees), every calculate result with a non-empty heirs
list has heir shares summing exactly to 1, including after the retransfer
pass. -/
theorem c1_shares_sum_one (a : CalcArgs)
    (hnodup : ((a.spouses ++ a.children ++ a.parents ++ a.siblings).map
      Person.id).Nodup)
    (hflag : ∀ p ∈ a.spouses ++ a.children ++ a.parents ++ a.siblings,
      p.died_before_division = true → p.is_alive = false)
    (hne : (calculate a).heirs ≠ []) :
    ((calculate a).heirs.map Heir.share).sum = 1 := by
  have hb : (builtResult a).heirs ≠ [] := by
    intro h0
    exact hne (calculate_heirs_nil_of_built_nil a h0)
  have hbuilt : ((builtResult a).heirs.map Heir.share).sum = 1 := by
    rw [builtResult_heirs]
    exact shares_sum_one (validSpousesL a) (validChildrenL a) (validParentsL a)
      (validSiblingsL a) a.sibling_blood_types (validated_ids_nodup a hnodup)
      (validParentsL_of_first a) (validSiblingsL_of_upper a)
      (builtResult_ne_nil_cases a hb)
  rw [calculate_eq]
  by_cases hinfo : a.retransfer_heirs_info.isEmpty
  · rw [if_pos hinfo]; exact hbuilt
  · rw [if_neg hinfo]
    rw [processRetransfer_sum (builtResult a) a.retransfer_heirs_info
      (fun h hmem hf => hflag h.person (builtResult_person_mem a h hmem) hf)]
    exact hbuilt

/-- Claim C7 (amended): the partition-rule citation for spouse-and-children,
spouse-and-ascendants or spouse-and-siblings is recorded exactly when the
corresponding configuration of validated ranks fired; the single-rank
configurations record no partition-rule citation. -/
theorem c7_partition_citation (a : CalcArgs) :
    ((cit900a ∈ (calculate a).calculation_basis) ↔
      (validSpousesL a ≠ [] ∧ validChildrenL a ≠ [])) ∧
    ((cit900b ∈ (calculate a).calculation_basis) ↔
      (validSpousesL a ≠ [] ∧ validChildrenL a = [] ∧ validParentsL a ≠ [])) ∧
    ((cit900c ∈ (calculate a).calculation_basis) ↔
      (validSpousesL a ≠ [] ∧ validChildrenL a = [] ∧ validParentsL a = [] ∧
        validSiblingsL a ≠ [])) := by
  have hbase : ∀ s : String, s ≠ cit896 →
      (s ∈ (calculate a).calculation_basis ↔
        s ∈ (builtResult a).calculation_basis) := by
    intro s hs
    rw [calculate_eq]
    by_cases hinfo : a.retransfer_heirs_info.isEmpty
    · rw [if_pos hinfo]
    · rw [if_neg hinfo]
      exact processRetransfer_basis_mem _ _ s hs
  refine ⟨?_, ?_, ?_⟩
  · rw [hbase cit900a (by decide), mem_basis_builtResult]
    have h1 : cit900a ≠ cit890 := by decide
    have h2 : cit900a ≠ cit887 := by decide
    have h3 : cit900a ≠ cit889a := by decide
    have h4 : cit900a ≠ cit889b := by decide
    have h5 : cit900a ≠ cit900b := by decide
    have h6 : cit900a ≠ cit900c := by decide
    constructor
    · rintro (⟨he, -⟩ | ⟨he, -⟩ | ⟨he, -⟩ | ⟨he, -⟩ | ⟨-, hc⟩ | ⟨he, -⟩ | ⟨he, -⟩)
      · exact absurd he h1
      · exact absurd he h2
      · exact absurd he h3
      · exact absurd he h4
      · exact hc
      · exact absurd he h5
      · exact absurd he h6
    · intro hc
      exact Or.inr (Or.inr (Or.inr (Or.inr (Or.inl ⟨rfl, hc⟩))))
  · rw [hbase cit900b (by decide), mem_basis_builtResult]
    have h1 : cit900b ≠ cit890 := by decide
    have h2 : cit900b ≠ cit887 := by decide
    have h3 : cit900b ≠ cit889a := by decide
    have h4 : cit900b ≠ cit889b := by decide
    have h5 : cit900b ≠ cit900a := by decide
    have h6 : cit900b ≠ cit900c := by decide
    constructor
    · rintro (⟨he, -⟩ | ⟨he, -⟩ | ⟨he, -⟩ | ⟨he, -⟩ | ⟨he, -⟩ | ⟨-, hno, hsp, hpa⟩ |
        ⟨he, -⟩)
      · exact absurd he h1
      · exact absurd he h2
      · exact absurd he h3
      · exact absurd he h4
      · exact absurd he h5
      · refine ⟨hsp, ?_, hpa⟩
        by_contra hch
        exact hno ⟨hsp, hch⟩
      · exact absurd he h6
    · rintro ⟨hsp, hch, hpa⟩
      exact Or.inr (Or.inr (Or.inr (Or.inr (Or.inr (Or.inl
        ⟨rfl, fun hx => hx.2 hch, hsp, hpa⟩)))))
  · rw [hbase cit900c (by decide), mem_basis_builtResult]
    have h1 : cit900c ≠ cit890 := by decide
    have h2 : cit900c ≠ cit887 := by decide
    have h3 : cit900c ≠ cit889a := by decide
    have h4 : cit900c ≠ cit889b := by decide
    have h5 : cit900c ≠ cit900a := by decide
    have h6 : cit900c ≠ cit900b := by decide
    constructor
    · rintro (⟨he, -⟩ | ⟨he, -⟩ | ⟨he, -⟩ | ⟨he, -⟩ | ⟨he, -⟩ | ⟨he, -⟩ |
        ⟨-, hno1, hno2, hsp, hsi⟩)
      · exact absurd he h1
      · exact absurd he h2
      · exact absurd he h3
      · exact absurd he h4
      · exact absurd he h5
      · exact absurd he h6
      · refine ⟨hsp, ?_, ?_, hsi⟩
        · by_contra hch
          exact hno1 ⟨hsp, hch⟩
        · by_contra hpa
          exact hno2 ⟨hsp, hpa⟩
    · rintro ⟨hsp, hch, hpa, hsi⟩
      exact Or.inr (Or.inr (Or.inr (Or.inr (Or.inr (Or.inr
        ⟨rfl, fun hx => hx.2 hch, fun hx => hx.2 hpa, hsp, hsi⟩)))))

/-- Claim C9: _add_heirs_to_result never omits a validated candidate or
raises on a missing share: whatever share mapping it is given, a candidate
whose id is absent from the mapping still gets an Heir entry, with share
exactly 0. -/
theorem c9_missing_share_defaults_zero (r : InheritanceResult)
    (sp ch pa si : List Person) (shares : List (String × ℚ)) (p : Person)
    (hp : p ∈ sp ++ ch ++ pa ++ si)
    (habs : shares.find? (fun e => e.1 == p.id) = none) :
    ∃ h ∈ (addHeirsToResult r sp ch pa si shares).heirs,
      h.person = p ∧ h.share = 0 := by
  have hz : lookupShare shares p.id = 0 := by simp [lookupShare, habs]
  rw [addHeirsToResult_heirs]
  rcases List.mem_append.mp hp with hp3 | hsi
  · rcases List.mem_append.mp hp3 with hp2 | hpa
    · rcases List.mem_append.mp hp2 with hsp | hch
      · exact ⟨mkHeirEntry p HeritageRank.SPOUSE (lookupShare shares p.id),
          List.mem_append_right _ ((mem_heirEntries _ _ _ _ _ _).mpr
            (Or.inl ⟨p, hsp, rfl⟩)), rfl, hz⟩
      · exact ⟨mkHeirEntry p HeritageRank.FIRST (lookupShare shares p.id),
          List.mem_append_right _ ((mem_heirEntries _ _ _ _ _ _).mpr
            (Or.inr (Or.inl ⟨p, hch, rfl⟩))), rfl, hz⟩
    · exact ⟨mkHeirEntry p HeritageRank.SECOND (lookupShare shares p.id),
        List.mem_append_right _ ((mem_heirEntries _ _ _ _ _ _).mpr
          (Or.inr (Or.inr (Or.inl ⟨p, hpa, rfl⟩)))), rfl, hz⟩
  · exact ⟨mkHeirEntry p HeritageRank.THIRD (lookupShare shares p.id),
      List.mem_append_right _ ((mem_heirEntries _ _ _ _ _ _).mpr
        (Or.inr (Or.inr (Or.inr ⟨p, hsi, rfl⟩)))), rfl, hz⟩

/-- A deceased decedent used by the concrete scenarios. -/
def personD : Person := ⟨"D", "decedent", false, true, false⟩

/-- A surviving spouse. -/
def personS : Person := ⟨"S", "spouse", true, false, false⟩

/-- A surviving first child. -/
def personC1p : Person := ⟨"C1", "child one", true, false, false⟩

/-- A surviving second child. -/
def personC2p : Person := ⟨"C2", "child two", true, false, false⟩

/-- A surviving full-blood sibling. -/
def personF : Person := ⟨"F", "full sibling", true, false, false⟩

/-- A surviving half-blood sibling. -/
def personH : Person := ⟨"H", "half sibling", true, false, false⟩

/-- A child who died before the estate division. -/
def personA : Person := ⟨"A", "child A", false, false, true⟩

/-- A child flagged died-before-division but still recorded alive. -/
def personB : Person := ⟨"B", "child B", true, false, true⟩

/-- A retransfer target. -/
def personT : Person := ⟨"T", "target", true, false, false⟩

/-- Another child flagged died-before-division but still recorded alive. -/
def personE : Person := ⟨"E", "child E", true, false, true⟩

/-- Spouse plus two children, no exclusions, no retransfer. -/
def argsSpouseChildren : CalcArgs :=
  ⟨personD, [personS], [personC1p, personC2p], [], [], [], [], [], [], []⟩

/-- Spouse plus one full-blood and one half-blood sibling. -/
def argsSiblings : CalcArgs :=
  ⟨personD, [personS], [], [], [personF, personH], [], [], [],
    [("H", BloodType.HALF)], []⟩

/-- Two flagged children, one dead with a retransfer target, one alive. -/
def argsRetransfer : CalcArgs :=
  ⟨personD, [], [personA, personB], [], [], [], [], [], [],
    [("A", [personT])]⟩

/-- One alive child flagged died-before-division, with a listed target. -/
def argsAliveFlag : CalcArgs :=
  ⟨personD, [], [personE], [], [], [], [], [], [], [("E", [personT])]⟩

/-- One child only, no spouse, no retransfer. -/
def argsChildOnly : CalcArgs :=
  ⟨personD, [], [personC1p], [], [], [], [], [], [], []⟩

/-- A dead flagged child whose id is absent from the retransfer mapping. -/
def argsDeadNoTarget : CalcArgs :=
  ⟨personD, [], [personA], [], [], [], [], [], [], [("X", [personT])]⟩

theorem argsRetransfer_built :
    (builtResult argsRetransfer).heirs =
      [mkHeirEntry personA HeritageRank.FIRST (1/2),
        mkHeirEntry personB HeritageRank.FIRST (1/2)] := by
  rw [builtResult_heirs]
  have hAB : ("A" : String) ≠ "B" := by decide
  have hBA : ("B" : String) ≠ "A" := by decide
  simp [heirEntries, validSpousesL, validChildrenL, validParentsL,
    validSiblingsL, sharesOf, calculate_shares, mkValidator, validate_spouse,
    validate_child, validate_parent, validate_sibling, isExcluded, inList,
    lookupShare, lookupBlood, siblingWeight, List.find?_cons_of_pos,
    List.find?_cons_of_neg, argsRetransfer, personA, personB, personD, personT,
    mkHeirEntry, hAB, hBA]
  try norm_num

theorem argsRetransfer_calc :
    (calculate argsRetransfer).heirs =
      [retransferHeir (mkHeirEntry personA HeritageRank.FIRST (1/2)) personT
        ((1/2 : ℚ) / 1)] := by
  rw [calculate_eq, if_neg (by decide),
    processRetransfer_heirs _ _ (by rw [argsRetransfer_built]; decide),
    argsRetransfer_built]
  have hAB : ("A" : String) ≠ "B" := by decide
  have hBA : ("B" : String) ≠ "A" := by decide
  simp [lookupTargets, calculateRetransferShares, List.find?_cons_of_pos,
    List.find?_cons_of_neg, argsRetransfer, personA, personB, personT,
    mkHeirEntry, List.filter, hAB, hBA]
  try norm_num

theorem argsAliveFlag_calc :
    (calculate argsAliveFlag).heirs = [mkHeirEntry personE HeritageRank.FIRST 1] := by
  have hb : (builtResult argsAliveFlag).heirs =
      [mkHeirEntry personE HeritageRank.FIRST 1] := by
    rw [builtResult_heirs]
    simp [heirEntries, validSpousesL, validChildrenL, validParentsL,
      validSiblingsL, sharesOf, calculate_shares, mkValidator, validate_spouse,
      validate_child, validate_parent, validate_sibling, isExcluded, inList,
      lookupShare, lookupBlood, siblingWeight, List.find?_cons_of_pos,
      List.find?_cons_of_neg, argsAliveFlag, personE, personD, mkHeirEntry]
    try norm_num
  rw [calculate_eq, if_neg (by decide),
    processRetransfer_eq_of_none _ _ (by rw [hb]; decide), hb]

theorem argsDeadNoTarget_built :
    (builtResult argsDeadNoTarget).heirs =
      [mkHeirEntry personA HeritageRank.FIRST 1] := by
  rw [builtResult_heirs]
  simp [heirEntries, validSpousesL, validChildrenL, validParentsL,
    validSiblingsL, sharesOf, calculate_shares, mkValidator, validate_spouse,
    validate_child, validate_parent, validate_sibling, isExcluded, inList,
    lookupShare, lookupBlood, siblingWeight, List.find?_cons_of_pos,
    List.find?_cons_of_neg, argsDeadNoTarget, personA, personD, mkHeirEntry]
  try norm_num

/-- Claim C4: one validated spouse, one full-blood sibling and one half-blood
sibling give spouse 3/4, full sibling 1/6 and half sibling 1/12 exactly, the
sibling quarter split by weights 2 to 1. -/
theorem c4_spouse_sibling_shares :
    ((calculate argsSiblings).heirs.map (fun h => (h.person.id, h.share))) =
      [("S", 3/4), ("F", 1/6), ("H", 1/12)] := by
  rw [calculate_eq, if_pos (by decide : argsSiblings.retransfer_heirs_info.isEmpty = true),
    builtResult_heirs]
  have hSF : ("S" : String) ≠ "F" := by decide
  have hSH : ("S" : String) ≠ "H" := by decide
  have hFH : ("F" : String) ≠ "H" := by decide
  have hFS : ("F" : String) ≠ "S" := by decide
  have hHS : ("H" : String) ≠ "S" := by decide
  have hHF : ("H" : String) ≠ "F" := by decide
  simp [heirEntries, validSpousesL, validChildrenL, validParentsL,
    validSiblingsL, sharesOf, calculate_shares, mkValidator, validate_spouse,
    validate_child, validate_parent, validate_sibling, isExcluded, inList,
    lookupShare, lookupBlood, siblingWeight, List.find?_cons_of_pos,
    List.find?_cons_of_neg, argsSiblings, personD, personS, personF, personH,
    mkHeirEntry, hSF, hSH, hFH, hFS, hHS, hHF]
  try norm_num

/-- Witness for C1 at a spouse-plus-two-children input. -/
theorem c1_shares_sum_one_witness :
    ((calculate argsSpouseChildren).heirs.map Heir.share).sum = 1 :=
  c1_shares_sum_one argsSpouseChildren (by decide) (by decide) (by decide)

/-- Counterexample to C1 as stated: with one dead flagged child rerouted and
one alive flagged child dropped, the non-empty result sums to 1/2, not 1. -/
theorem c1_counterexample :
    (calculate argsRetransfer).heirs ≠ [] ∧
    ((calculate argsRetransfer).heirs.map Heir.share).sum = 1/2 := by
  rw [argsRetransfer_calc]
  constructor
  · simp
  · norm_num [retransferHeir]

/-- Witness for C2 (amended) at the dead flagged child with one target. -/
theorem c2_retransfer_replacement_witness :
    retransferHeir (mkHeirEntry personA HeritageRank.FIRST (1/2)) personT
      ((mkHeirEntry personA HeritageRank.FIRST (1/2)).share /
        ((lookupTargets argsRetransfer.retransfer_heirs_info
          (mkHeirEntry personA HeritageRank.FIRST (1/2)).person.id).length : ℚ)) ∈
      (calculate argsRetransfer).heirs ∧
    mkHeirEntry personA HeritageRank.FIRST (1/2) ∉ (calculate argsRetransfer).heirs := by
  have h := c2_retransfer_replacement argsRetransfer (by decide)
    (mkHeirEntry personA HeritageRank.FIRST (1/2))
    (by simp [argsRetransfer_built]) rfl rfl (by decide)
  exact ⟨h.1 personT (by decide), h.2⟩

/-- Counterexample to C2 as stated: an heir flagged died-before-division but
recorded alive, with a listed target, is not replaced; its entry survives
unchanged and no retransfer entry is created. -/
theorem c2_counterexample :
    argsAliveFlag.retransfer_heirs_info ≠ [] ∧
    personE.died_before_division = true ∧
    lookupTargets argsAliveFlag.retransfer_heirs_info personE.id ≠ [] ∧
    (calculate argsAliveFlag).heirs = [mkHeirEntry personE HeritageRank.FIRST 1] ∧
    ∀ h ∈ (calculate argsAliveFlag).heirs, h.is_retransfer = false := by
  refine ⟨by decide, rfl, by decide, argsAliveFlag_calc, ?_⟩
  rw [argsAliveFlag_calc]
  intro h hm
  rcases List.mem_singleton.mp hm with rfl
  rfl

/-- Witness for C3 at a spouse-plus-two-children input. -/
theorem c3_rank_exhaustion_witness :
    validChildrenL argsSpouseChildren ≠ [] ∧
    ∀ h ∈ (calculate argsSpouseChildren).heirs,
      h.rank ≠ HeritageRank.SECOND ∧ h.rank ≠ HeritageRank.THIRD :=
  ⟨by decide, (c3_rank_exhaustion argsSpouseChildren).1 (by decide)⟩

/-- Witness for C5 (amended): a run with no retransfer mapping is unchanged,
and a dead flagged heir with no listed target is carried over. -/
theorem c5_retransfer_frame_witness :
    (calculate argsSpouseChildren).heirs = (builtResult argsSpouseChildren).heirs ∧
    mkHeirEntry personA HeritageRank.FIRST 1 ∈ (calculate argsDeadNoTarget).heirs := by
  constructor
  · exact (c5_retransfer_frame argsSpouseChildren).1 rfl
  · exact (c5_retransfer_frame argsDeadNoTarget).2.2
      (mkHeirEntry personA HeritageRank.FIRST 1)
      (by simp [argsDeadNoTarget_built]) rfl rfl (by decide)

/-- Counterexample to C5 as stated: an heir flagged died-before-division with
no listed targets that is still alive is not carried over once another
flagged dead heir triggers the pass. -/
theorem c5_counterexample :
    mkHeirEntry personB HeritageRank.FIRST (1/2) ∈ (builtResult argsRetransfer).heirs ∧
    personB.died_before_division = true ∧
    lookupTargets argsRetransfer.retransfer_heirs_info personB.id = [] ∧
    mkHeirEntry personB HeritageRank.FIRST (1/2) ∉ (calculate argsRetransfer).heirs := by
  refine ⟨by simp [argsRetransfer_built], rfl, by decide, ?_⟩
  intro hmem
  rw [argsRetransfer_calc] at hmem
  exact absurd (congrArg Heir.is_retransfer (List.mem_singleton.mp hmem))
    (by decide)

/-- Witness for C6: the alive flagged child's entry vanishes from the result. -/
theorem c6_alive_flagged_dropped_witness :
    mkHeirEntry personB HeritageRank.FIRST (1/2) ∉ (calculate argsRetransfer).heirs :=
  (c6_alive_flagged_dropped argsRetransfer (by decide)
    ⟨mkHeirEntry personA HeritageRank.FIRST (1/2), by simp [argsRetransfer_built],
      rfl, rfl⟩
    (mkHeirEntry personB HeritageRank.FIRST (1/2)) (by simp [argsRetransfer_built])
    rfl rfl).1

/-- Counterexample to C7 as stated: the children-only configuration records
no partition-rule citation at all. -/
theorem c7_counterexample :
    (calculate argsChildOnly).calculation_basis = [cit887] ∧
    cit900a ∉ (calculate argsChildOnly).calculation_basis ∧
    cit900b ∉ (calculate argsChildOnly).calculation_basis ∧
    cit900c ∉ (calculate argsChildOnly).calculation_basis := by
  have hb : (calculate argsChildOnly).calculation_basis = [cit887] := by decide
  rw [hb]
  exact ⟨rfl, by decide, by decide, by decide⟩

/-- Witness for C9: a child passed with an empty share mapping still gets an
Heir entry with share zero. -/
theorem c9_missing_share_witness :
    ∃ h ∈ (addHeirsToResult (InheritanceResult.init personD) [] [personC1p] [] []
      []).heirs, h.person = personC1p ∧ h.share = 0 :=
  c9_missing_share_defaults_zero (InheritanceResult.init personD) [] [personC1p]
    [] [] [] personC1p (by decide) rfl

/-- Witness for C10 at a spouse-plus-two-children input with no retransfer. -/
theorem c10_heirs_rank_grouped_witness :
    (calculate argsSpouseChildren).heirs =
      heirEntries (validSpousesL argsSpouseChildren)
        (validChildrenL argsSpouseChildren) (validParentsL argsSpouseChildren)
        (validSiblingsL argsSpouseChildren) (sharesOf argsSpouseChildren) :=
  c10_heirs_rank_grouped argsSpouseChildren (Or.inl rfl)

end InheritanceCalc
